import Mathlib

/-!
Verification of the flat-file state persistence core
(`src/bindings/c/state_persistence.c` / `.h`).

The C code is embedded shallowly:

* C strings (`const char *`) are `List Char`; a valid C string contains no
  NUL byte, which appears as an explicit hypothesis where a theorem needs it.
* A file's content is a `List Char`; a path that cannot be opened is
  modelled by passing `none` instead of `some content`.
* `fgets(buf, 256, f)` is `fgets 256`, reading at most 255 characters and
  stopping after a newline; it returns `none` exactly when no character
  could be read (end of file).
* `name[strcspn(name, "\n")] = 0` followed by `strdup(name)` is `chopLine`:
  the buffer's prefix up to the first newline or NUL byte.
* `fscanf(f, "%u\n%u\n", ...)` is `fscanf_uu`: each `%u` skips C whitespace,
  accepts an optional sign and a nonempty digit run (value reduced mod 2^32,
  negated for a leading minus), assigning its destination only on a match;
  the result carries the conversion count (`-1` for input failure before the
  first conversion, as `EOF`).
* `fprintf(f, "%s\n%s\n%u\n%u\n", ...)` is `encodeState`, with `%u` printed
  by `natDigits` (decimal, no sign, no padding).
-/

/-! ## Data model (state_persistence.h) -/

structure Aggregator where
  socket_path : List Char
  socket_permission : Nat
deriving DecidableEq

structure GitConfig where
  default_server : List Char
  credentials_file : List Char
deriving DecidableEq

structure DatabaseConfig where
  url : List Char
  pool_size : Nat
deriving DecidableEq

structure AppConfig where
  app_name : List Char
  max_ram_usage : Nat
  max_cpu_usage : Nat
  environment : List Char
  debug_mode : Int
  log_level : List Char
  git : Option GitConfig
  database : Option DatabaseConfig
  aggregator : Option Aggregator
deriving DecidableEq

structure ErrorItem where
  err_type : List Char
  err_mesg : List Char
deriving DecidableEq

structure Output where
  timestamp : Nat
  line : List Char
deriving DecidableEq

structure AppState where
  name : List Char
  version : List Char
  data : List Char
  status : List Char
  pid : Nat
  last_updated : Nat
  stared_at : Nat
  event_counter : Nat
  error_log : List ErrorItem
  error_log_len : Nat
  config : AppConfig
  system_application : Int
  stdout_entries : List Output
  stdout_len : Nat
  stderr_entries : List Output
  stderr_len : Nat
deriving DecidableEq

/-! ## Encoder (save_state) -/

/-- Decimal digit characters of `n`, most significant first, as `%u` prints
them (single digit for `n < 10`, otherwise higher digits followed by the
last). Structural recursion on a fuel argument that is always sufficient. -/
def natDigitsAux : Nat → Nat → List Char
  | 0, _ => []
  | fuel + 1, n =>
    if n < 10 then [Char.ofNat (48 + n)]
    else natDigitsAux fuel (n / 10) ++ [Char.ofNat (48 + n % 10)]

/-- The decimal representation `%u` writes for the value `n`. -/
def natDigits (n : Nat) : List Char := natDigitsAux (n + 1) n

/-- The bytes `save_state` writes:
`fprintf(f, "%s\n%s\n%u\n%u\n", state->name, state->version, state->pid,
state->event_counter)`. -/
def encodeState (s : AppState) : List Char :=
  s.name ++ ('\n' ::
    (s.version ++ ('\n' ::
      (natDigits s.pid ++ ('\n' ::
        (natDigits s.event_counter ++ ['\n']))))))

/-- `save_state`: open the path for writing (truncating); on open failure
return `-1` with nothing written, otherwise write the four-line record and
return `0`. `canOpen` models whether `fopen(path, "w")` succeeds; the second
component is the written file content. -/
def save_state (state : AppState) (canOpen : Bool) : Int × Option (List Char) :=
  if canOpen then (0, some (encodeState state)) else (-1, none)

/-! ## Decoder (load_state) -/

/-- Reading loop of `fgets` with room for `k` characters: stop after a
newline, when the buffer is full, or at end of input. Returns the characters
read and the unread remainder. -/
def fgetsAux : Nat → List Char → List Char × List Char
  | 0, s => ([], s)
  | _ + 1, [] => ([], [])
  | k + 1, c :: s =>
    if c = '\n' then ([c], s)
    else
      let p := fgetsAux k s
      (c :: p.1, p.2)

/-- `fgets(buf, n, f)`: reads at most `n - 1` characters; returns `none`
exactly when the stream is already at end of file (no character read). -/
def fgets (n : Nat) (s : List Char) : Option (List Char × List Char) :=
  match s with
  | [] => none
  | _ => some (fgetsAux (n - 1) s)

/-- `buf[strcspn(buf, "\n")] = 0` followed by `strdup(buf)`: the prefix of
the buffer up to (excluding) the first newline or NUL byte. -/
def chopLine (buf : List Char) : List Char :=
  buf.takeWhile (fun c => decide (c ≠ '\n') && decide (c ≠ '\x00'))

/-- C `isspace` characters, which `%u` and a whitespace directive skip. -/
def isCSpace (c : Char) : Bool :=
  c = ' ' || c = '\t' || c = '\n' || c = '\x0b' || c = '\x0c' || c = '\r'

/-- ASCII decimal digit test used by `%u`. -/
def isDigitChar (c : Char) : Bool := 48 ≤ c.toNat && c.toNat ≤ 57

/-- Optional sign accepted by `%u`; returns whether a minus was read and the
rest. -/
def stripSign (s : List Char) : Bool × List Char :=
  match s with
  | [] => (false, [])
  | c :: t =>
    if c = '-' then (true, t)
    else if c = '+' then (false, t)
    else (false, c :: t)

/-- Value of a big-endian digit-character run. -/
def digitsToNat (ds : List Char) : Nat :=
  ds.foldl (fun acc c => acc * 10 + (c.toNat - 48)) 0

/-- Outcome of one `%u` conversion. -/
inductive ScanRes where
  | eof
  | noconv
  | ok (v : Nat) (rest : List Char)
deriving DecidableEq

/-- One `%u` conversion: skip C whitespace, accept an optional sign, then a
nonempty digit run. `eof` when input ends before a digit could be demanded,
`noconv` on a non-digit character, otherwise the unsigned value (mod 2^32,
negated for a minus sign) and the unconsumed rest. -/
def scanUInt (s : List Char) : ScanRes :=
  let s1 := s.dropWhile isCSpace
  let p := stripSign s1
  match p.2 with
  | [] => ScanRes.eof
  | c :: t =>
    if isDigitChar c then
      let ds := (c :: t).takeWhile isDigitChar
      let rest := (c :: t).dropWhile isDigitChar
      let v := digitsToNat ds % 2 ^ 32
      ScanRes.ok (if p.1 then (2 ^ 32 - v) % 2 ^ 32 else v) rest
    else ScanRes.noconv

/-- `fscanf(f, "%u\n%u\n", &pid, &event_counter)` on the remaining input:
returns the conversion count (`-1` = `EOF`) and the values assigned to the
first and second destination (assigned only when that conversion matched). -/
def fscanf_uu (s : List Char) : Int × Option Nat × Option Nat :=
  match scanUInt s with
  | ScanRes.eof => (-1, none, none)
  | ScanRes.noconv => (0, none, none)
  | ScanRes.ok v1 r1 =>
    match scanUInt r1 with
    | ScanRes.ok v2 _ => (2, some v1, some v2)
    | _ => (1, some v1, none)

/-- `load_state`: `none` for the file models `fopen(path, "r")` failing.
Mirrors the C control flow: two `fgets` reads (returning `-1` if either
fails), then the `strdup`ed chopped lines are stored into the record, then
`fscanf` writes `pid`/`event_counter` for each matched conversion and the
function returns `0` only when both matched. The second component is the
caller's record after the call. -/
def load_state (state : AppState) (file : Option (List Char)) : Int × AppState :=
  match file with
  | none => (-1, state)
  | some content =>
    match fgets 256 content with
    | none => (-1, state)
    | some (nbuf, rest1) =>
      match fgets 256 rest1 with
      | none => (-1, state)
      | some (vbuf, rest2) =>
        let state1 := { state with name := chopLine nbuf, version := chopLine vbuf }
        let r := fscanf_uu rest2
        let state2 := { state1 with
          pid := r.2.1.getD state1.pid
          event_counter := r.2.2.getD state1.event_counter }
        if r.1 = 2 then (0, state2) else (-1, state2)

/-! ## Concrete states used in witnesses and counterexamples -/

/-- A concrete fully-defaulted record, standing for the caller-supplied
output record before a call. -/
def dflt : AppState :=
  { name := [], version := [], data := [], status := [], pid := 0,
    last_updated := 0, stared_at := 0, event_counter := 0, error_log := [],
    error_log_len := 0,
    config := { app_name := [], max_ram_usage := 0, max_cpu_usage := 0,
                environment := [], debug_mode := 0, log_level := [],
                git := none, database := none, aggregator := none },
    system_application := 0, stdout_entries := [], stdout_len := 0,
    stderr_entries := [], stderr_len := 0 }

/-- The record of the spec's concrete scenario. -/
def agentState : AppState :=
  { dflt with
    name := "agent".toList, version := "1.0.0".toList,
    pid := 4242, event_counter := 7 }

/-- A record within all of claim C1's hypotheses (no newline in `name` or
`version`, both counters in unsigned 32-bit range) whose 255-character name
does not survive a save/load round trip. -/
def longNameState : AppState :=
  { dflt with
    name := List.replicate 255 'a', version := ['v'],
    pid := 1, event_counter := 2 }

/-- A concrete pre-call record with nonempty fields, used to observe which
fields a failing `load_state` overwrites. -/
def preState : AppState :=
  { dflt with
    name := "old".toList, version := "over".toList,
    pid := 99, event_counter := 88 }

/-- A record whose name embeds a newline, used against `save_state`. -/
def newlineState : AppState :=
  { dflt with
    name := "a\nb".toList, version := "1".toList,
    pid := 3, event_counter := 4 }

/-- Segments of a character list delimited by newline characters; a final
segment follows the last newline, so a file made of exactly `n`
newline-terminated lines splits into those `n` lines followed by one empty
segment. -/
def splitNl : List Char → List (List Char)
  | [] => [[]]
  | c :: s =>
    if c = '\n' then [] :: splitNl s
    else
      match splitNl s with
      | [] => [[c]]
      | l :: ls => (c :: l) :: ls

/-! ## Arithmetic of the decimal printer -/

theorem natDigitsAux_digit : ∀ fuel n c, c ∈ natDigitsAux fuel n →
    isDigitChar c = true := by
  intro fuel
  induction fuel with
  | zero => intro n c h; simp [natDigitsAux] at h
  | succ k ih =>
    intro n c h
    simp only [natDigitsAux] at h
    by_cases h10 : n < 10
    · rw [if_pos h10] at h
      simp only [List.mem_singleton] at h
      subst h
      interval_cases n <;> decide
    · rw [if_neg h10] at h
      rcases List.mem_append.mp h with h1 | h1
      · exact ih _ _ h1
      · simp only [List.mem_singleton] at h1
        subst h1
        have : n % 10 < 10 := Nat.mod_lt _ (by omega)
        interval_cases h : (n % 10) <;> decide

theorem natDigitsAux_ne_nil : ∀ fuel n, fuel ≠ 0 → natDigitsAux fuel n ≠ [] := by
  intro fuel n h
  cases fuel with
  | zero => exact absurd rfl h
  | succ k =>
    simp only [natDigitsAux]
    by_cases h10 : n < 10
    · rw [if_pos h10]; simp
    · rw [if_neg h10]; simp

theorem natDigits_ne_nil (n : Nat) : natDigits n ≠ [] :=
  natDigitsAux_ne_nil (n + 1) n (by omega)

theorem natDigits_digit (n : Nat) (c : Char) (h : c ∈ natDigits n) :
    isDigitChar c = true :=
  natDigitsAux_digit (n + 1) n c h

theorem foldl_natDigitsAux : ∀ fuel n a, n < fuel →
    (natDigitsAux fuel n).foldl (fun acc c => acc * 10 + (c.toNat - 48)) a =
      a * 10 ^ (natDigitsAux fuel n).length + n := by
  intro fuel
  induction fuel with
  | zero => intro n a h; omega
  | succ k ih =>
    intro n a h
    simp only [natDigitsAux]
    by_cases h10 : n < 10
    · rw [if_pos h10]
      have hc : (Char.ofNat (48 + n)).toNat = 48 + n := by
        interval_cases n <;> decide
      simp [List.foldl, hc]
    · rw [if_neg h10]
      have hlt : n / 10 < k := by omega
      rw [List.foldl_append, ih _ a hlt]
      have hm : n % 10 < 10 := Nat.mod_lt _ (by omega)
      have hc : (Char.ofNat (48 + n % 10)).toNat = 48 + n % 10 := by
        interval_cases h : (n % 10) <;> decide
      simp only [List.foldl, List.length_append, List.length_singleton, hc]
      have : 10 ^ ((natDigitsAux k (n / 10)).length + 1) =
          10 ^ (natDigitsAux k (n / 10)).length * 10 := by ring
      rw [this]
      have hdm : n / 10 * 10 + n % 10 = n := by omega
      ring_nf
      omega

theorem digitsToNat_natDigits (n : Nat) : digitsToNat (natDigits n) = n := by
  have := foldl_natDigitsAux (n + 1) n 0 (by omega)
  simpa [digitsToNat, natDigits] using this

/-! ## takeWhile / dropWhile on a satisfied run followed by a failing head -/

theorem takeWhile_middle (p : Char → Bool) :
    ∀ (l : List Char) (x : Char) (r : List Char), (∀ c ∈ l, p c = true) →
      p x = false → (l ++ x :: r).takeWhile p = l := by
  intro l
  induction l with
  | nil => intro x r _ hx; simp [List.takeWhile, hx]
  | cons c t ih =>
    intro x r hl hx
    have hc : p c = true := hl c (List.mem_cons_self c t)
    simp only [List.cons_append, List.takeWhile_cons, hc, if_true]
    rw [ih x r (fun d hd => hl d (List.mem_cons_of_mem c hd)) hx]

theorem dropWhile_middle (p : Char → Bool) :
    ∀ (l : List Char) (x : Char) (r : List Char), (∀ c ∈ l, p c = true) →
      p x = false → (l ++ x :: r).dropWhile p = x :: r := by
  intro l
  induction l with
  | nil => intro x r _ hx; simp [List.dropWhile, hx]
  | cons c t ih =>
    intro x r hl hx
    have hc : p c = true := hl c (List.mem_cons_self c t)
    simp only [List.cons_append, List.dropWhile_cons, hc, if_true]
    exact ih x r (fun d hd => hl d (List.mem_cons_of_mem c hd)) hx

theorem takeWhile_all (p : Char → Bool) :
    ∀ (l : List Char), (∀ c ∈ l, p c = true) → l.takeWhile p = l := by
  intro l
  induction l with
  | nil => simp
  | cons c t ih =>
    intro hl
    have hc : p c = true := hl c (List.mem_cons_self c t)
    simp only [List.takeWhile_cons, hc, if_true]
    rw [ih (fun d hd => hl d (List.mem_cons_of_mem c hd))]

/-! ## Character-class facts -/

theorem digit_toNat (c : Char) (h : isDigitChar c = true) :
    48 ≤ c.toNat ∧ c.toNat ≤ 57 := by
  simpa [isDigitChar, Bool.and_eq_true, decide_eq_true_eq] using h

theorem digit_ne_newline (c : Char) (h : isDigitChar c = true) : c ≠ '\n' := by
  intro he; rw [he] at h; exact absurd h (by decide)

theorem digit_ne_nul (c : Char) (h : isDigitChar c = true) : c ≠ '\x00' := by
  intro he; rw [he] at h; exact absurd h (by decide)

theorem digit_ne_minus (c : Char) (h : isDigitChar c = true) : c ≠ '-' := by
  intro he; rw [he] at h; exact absurd h (by decide)

theorem digit_ne_plus (c : Char) (h : isDigitChar c = true) : c ≠ '+' := by
  intro he; rw [he] at h; exact absurd h (by decide)

theorem digit_not_space (c : Char) (h : isDigitChar c = true) :
    isCSpace c = false := by
  simp only [isCSpace, Bool.or_eq_false_iff, decide_eq_false_iff_not]
  refine ⟨⟨⟨⟨⟨?_, ?_⟩, ?_⟩, ?_⟩, ?_⟩, ?_⟩ <;>
    (intro he; rw [he] at h; exact absurd h (by decide))

theorem newline_not_digit : isDigitChar '\n' = false := by decide

theorem isCSpace_newline : isCSpace '\n' = true := by decide

/-! ## fgets on well-shaped input -/

theorem fgetsAux_line : ∀ (l : List Char) (k : Nat) (r : List Char),
    '\n' ∉ l → l.length < k → fgetsAux k (l ++ '\n' :: r) = (l ++ ['\n'], r) := by
  intro l
  induction l with
  | nil =>
    intro k r _ hk
    cases k with
    | zero => omega
    | succ k2 => simp [fgetsAux]
  | cons c t ih =>
    intro k r hnl hk
    cases k with
    | zero => simp at hk
    | succ k2 =>
      have hc : c ≠ '\n' := fun he => hnl (he ▸ List.mem_cons_self c t)
      have ht : '\n' ∉ t := fun hm => hnl (List.mem_cons_of_mem c hm)
      have hk2 : t.length < k2 := by simp at hk; omega
      simp only [List.cons_append, fgetsAux, if_neg hc, List.append_eq]
      rw [ih k2 r ht hk2]

theorem fgetsAux_all : ∀ (l : List Char) (k : Nat),
    '\n' ∉ l → l.length ≤ k → fgetsAux k l = (l, []) := by
  intro l
  induction l with
  | nil =>
    intro k _ _
    cases k with
    | zero => simp [fgetsAux]
    | succ k2 => simp [fgetsAux]
  | cons c t ih =>
    intro k hnl hk
    cases k with
    | zero => simp at hk
    | succ k2 =>
      have hc : c ≠ '\n' := fun he => hnl (he ▸ List.mem_cons_self c t)
      have ht : '\n' ∉ t := fun hm => hnl (List.mem_cons_of_mem c hm)
      have hk2 : t.length ≤ k2 := by simp at hk; omega
      simp only [fgetsAux, if_neg hc]
      rw [ih k2 ht hk2]

theorem fgets_line (l r : List Char) (hnl : '\n' ∉ l) (hk : l.length ≤ 254) :
    fgets 256 (l ++ '\n' :: r) = some (l ++ ['\n'], r) := by
  have hne : l ++ '\n' :: r ≠ [] := by simp
  have : fgets 256 (l ++ '\n' :: r) = some (fgetsAux 255 (l ++ '\n' :: r)) := by
    unfold fgets
    cases he : l ++ '\n' :: r with
    | nil => exact absurd he hne
    | cons a b => rfl
  rw [this, fgetsAux_line l 255 r hnl (by omega)]

theorem fgets_all (l : List Char) (hne : l ≠ []) (hnl : '\n' ∉ l)
    (hk : l.length ≤ 255) : fgets 256 l = some (l, []) := by
  have : fgets 256 l = some (fgetsAux 255 l) := by
    unfold fgets
    cases he : l with
    | nil => exact absurd he hne
    | cons a b => rfl
  rw [this, fgetsAux_all l 255 hnl hk]

/-! ## chopLine on well-shaped buffers -/

theorem chopLine_pred (c : Char) (h1 : c ≠ '\n') (h2 : c ≠ '\x00') :
    (decide (c ≠ '\n') && decide (c ≠ '\x00')) = true := by
  simp [h1, h2]

theorem chopLine_line (l : List Char) (hnl : '\n' ∉ l) (hz : '\x00' ∉ l) :
    chopLine (l ++ ['\n']) = l := by
  unfold chopLine
  have := takeWhile_middle (fun c => decide (c ≠ '\n') && decide (c ≠ '\x00'))
    l '\n' []
  simp only [List.append_nil] at this
  exact this
    (fun c hc => chopLine_pred c (fun he => hnl (he ▸ hc)) (fun he => hz (he ▸ hc)))
    (by decide)

theorem chopLine_id (l : List Char) (hnl : '\n' ∉ l) (hz : '\x00' ∉ l) :
    chopLine l = l := by
  unfold chopLine
  exact takeWhile_all _ l
    (fun c hc => chopLine_pred c (fun he => hnl (he ▸ hc)) (fun he => hz (he ▸ hc)))

/-! ## scanUInt / fscanf_uu on well-shaped input -/

theorem scanUInt_run (d : Char) (ds : List Char) (x : Char) (r : List Char)
    (hd : isDigitChar d = true) (hds : ∀ c ∈ ds, isDigitChar c = true)
    (hx : isDigitChar x = false) :
    scanUInt (d :: ds ++ x :: r) =
      ScanRes.ok (digitsToNat (d :: ds) % 2 ^ 32) (x :: r) := by
  have hall : ∀ c ∈ d :: ds, isDigitChar c = true := by
    intro c hc
    rcases List.mem_cons.mp hc with he | hm
    · exact he ▸ hd
    · exact hds c hm
  have hsp : isCSpace d = false := digit_not_space d hd
  have hm2 : d ≠ '-' := digit_ne_minus d hd
  have hp2 : d ≠ '+' := digit_ne_plus d hd
  have htk : (d :: ds ++ x :: r).takeWhile isDigitChar = d :: ds := by
    have := takeWhile_middle isDigitChar (d :: ds) x r hall hx
    simpa using this
  unfold scanUInt
  simp only [List.cons_append]
  simp only [List.dropWhile_cons, hsp, Bool.false_eq_true, if_false,
    stripSign, if_neg hm2, if_neg hp2]
  simp only [if_pos hd]
  simp only [List.cons_append] at htk
  rw [htk, dropWhile_middle isDigitChar ds x r hds hx]

theorem scanUInt_cons_space (c : Char) (s : List Char) (h : isCSpace c = true) :
    scanUInt (c :: s) = scanUInt s := by
  unfold scanUInt
  simp only [List.dropWhile_cons, h, if_true]

theorem fscanf_uu_encode (p e : Nat) :
    fscanf_uu (natDigits p ++ ('\n' :: (natDigits e ++ ['\n']))) =
      (2, some (p % 2 ^ 32), some (e % 2 ^ 32)) := by
  have h2 : scanUInt ('\n' :: (natDigits e ++ ['\n'])) =
      ScanRes.ok (e % 2 ^ 32) ['\n'] := by
    rw [scanUInt_cons_space '\n' _ isCSpace_newline]
    cases he : natDigits e with
    | nil => exact absurd he (natDigits_ne_nil e)
    | cons d2 ds2 =>
      have hd2 : isDigitChar d2 = true :=
        natDigits_digit e d2 (by rw [he]; exact List.mem_cons_self d2 ds2)
      have hds2 : ∀ c ∈ ds2, isDigitChar c = true := fun c hc =>
        natDigits_digit e c (by rw [he]; exact List.mem_cons_of_mem d2 hc)
      have hrun := scanUInt_run d2 ds2 '\n' [] hd2 hds2 newline_not_digit
      rw [hrun, ← he, digitsToNat_natDigits]
  cases hp : natDigits p with
  | nil => exact absurd hp (natDigits_ne_nil p)
  | cons d ds =>
    have hd : isDigitChar d = true :=
      natDigits_digit p d (by rw [hp]; exact List.mem_cons_self d ds)
    have hds : ∀ c ∈ ds, isDigitChar c = true := fun c hc =>
      natDigits_digit p c (by rw [hp]; exact List.mem_cons_of_mem d hc)
    have h1 := scanUInt_run d ds '\n' (natDigits e ++ ['\n']) hd hds
      newline_not_digit
    unfold fscanf_uu
    simp only [h1, h2]
    rw [← hp, digitsToNat_natDigits]

theorem fscanf_uu_snd_none (s : List Char) (h : (fscanf_uu s).1 ≠ 2) :
    (fscanf_uu s).2.2 = none := by
  unfold fscanf_uu at h ⊢
  cases hs : scanUInt s with
  | eof => rfl
  | noconv => rfl
  | ok v1 r1 =>
    simp only at h ⊢
    cases hs2 : scanUInt r1 with
    | eof => simp only [hs2]
    | noconv => simp only [hs2]
    | ok v2 r2 =>
      rw [hs] at h
      simp only at h
      rw [hs2] at h
      exact absurd rfl h

/-! ## load_state reduction lemmas -/

theorem load_state_stages (init : AppState)
    (content nbuf rest1 vbuf rest2 : List Char)
    (h1 : fgets 256 content = some (nbuf, rest1))
    (h2 : fgets 256 rest1 = some (vbuf, rest2)) :
    load_state init (some content) =
      (if (fscanf_uu rest2).1 = 2 then 0 else -1,
       { init with
         name := chopLine nbuf, version := chopLine vbuf,
         pid := (fscanf_uu rest2).2.1.getD init.pid,
         event_counter := (fscanf_uu rest2).2.2.getD init.event_counter }) := by
  simp only [load_state, h1, h2]
  split <;> rfl

theorem load_state_shape (init : AppState) (file : Option (List Char)) :
    ∃ nm vs p e, (load_state init file).2 =
      { init with name := nm, version := vs, pid := p, event_counter := e } := by
  cases file with
  | none => exact ⟨init.name, init.version, init.pid, init.event_counter, rfl⟩
  | some content =>
    cases h1 : fgets 256 content with
    | none =>
      refine ⟨init.name, init.version, init.pid, init.event_counter, ?_⟩
      simp only [load_state, h1]
    | some pr1 =>
      obtain ⟨nbuf, rest1⟩ := pr1
      cases h2 : fgets 256 rest1 with
      | none =>
        refine ⟨init.name, init.version, init.pid, init.event_counter, ?_⟩
        simp only [load_state, h1, h2]
      | some pr2 =>
        obtain ⟨vbuf, rest2⟩ := pr2
        refine ⟨chopLine nbuf, chopLine vbuf,
          (fscanf_uu rest2).2.1.getD init.pid,
          (fscanf_uu rest2).2.2.getD init.event_counter, ?_⟩
        rw [load_state_stages init content nbuf rest1 vbuf rest2 h1 h2]

/-! ## splitNl on newline-terminated lines -/

theorem splitNl_line : ∀ (l r : List Char), '\n' ∉ l →
    splitNl (l ++ '\n' :: r) = l :: splitNl r := by
  intro l
  induction l with
  | nil => intro r _; simp [splitNl]
  | cons c t ih =>
    intro r hnl
    have hc : c ≠ '\n' := fun he => hnl (he ▸ List.mem_cons_self c t)
    have ht : '\n' ∉ t := fun hm => hnl (List.mem_cons_of_mem c hm)
    simp only [List.cons_append, splitNl, if_neg hc, List.append_eq]
    rw [ih r ht]

/-! ## fgets truncation on an overlong line -/

theorem fgetsAux_trunc : ∀ (k : Nat) (l r : List Char), '\n' ∉ l →
    k ≤ l.length → fgetsAux k (l ++ r) = (l.take k, l.drop k ++ r) := by
  intro k
  induction k with
  | zero => intro l r _ _; simp [fgetsAux]
  | succ k2 ih =>
    intro l r hnl hk
    cases l with
    | nil => simp at hk
    | cons c t =>
      have hc : c ≠ '\n' := fun he => hnl (he ▸ List.mem_cons_self c t)
      have ht : '\n' ∉ t := fun hm => hnl (List.mem_cons_of_mem c hm)
      have hk2 : k2 ≤ t.length := by simp at hk; omega
      simp only [List.cons_append, fgetsAux, if_neg hc, List.append_eq]
      rw [ih t r ht hk2]
      simp [List.take_succ_cons, List.drop_succ_cons]

theorem fgets_trunc (l r : List Char) (hnl : '\n' ∉ l) (hk : 255 ≤ l.length) :
    fgets 256 (l ++ r) = some (l.take 255, l.drop 255 ++ r) := by
  have hne : l ++ r ≠ [] := by
    cases l with
    | nil => simp at hk
    | cons c t => simp
  have : fgets 256 (l ++ r) = some (fgetsAux 255 (l ++ r)) := by
    unfold fgets
    cases he : l ++ r with
    | nil => exact absurd he hne
    | cons a b => rfl
  rw [this, fgetsAux_trunc 255 l r hnl hk]

/-! ## The successful round trip -/

theorem load_after_save (init s : AppState)
    (hn : '\n' ∉ s.name) (hn0 : '\x00' ∉ s.name)
    (hv : '\n' ∉ s.version) (hv0 : '\x00' ∉ s.version)
    (hln : s.name.length ≤ 254) (hlv : s.version.length ≤ 254) :
    load_state init (some (encodeState s)) =
      (0, { init with
            name := s.name, version := s.version,
            pid := s.pid % 2 ^ 32,
            event_counter := s.event_counter % 2 ^ 32 }) := by
  have h1 : fgets 256 (encodeState s) =
      some (s.name ++ ['\n'],
        s.version ++ ('\n' :: (natDigits s.pid ++ ('\n' ::
          (natDigits s.event_counter ++ ['\n']))))) := by
    unfold encodeState
    exact fgets_line s.name _ hn hln
  have h2 : fgets 256 (s.version ++ ('\n' :: (natDigits s.pid ++ ('\n' ::
        (natDigits s.event_counter ++ ['\n']))))) =
      some (s.version ++ ['\n'],
        natDigits s.pid ++ ('\n' :: (natDigits s.event_counter ++ ['\n']))) :=
    fgets_line s.version _ hv hlv
  rw [load_state_stages init _ _ _ _ _ h1 h2]
  rw [fscanf_uu_encode]
  simp only [chopLine_line s.name hn hn0, chopLine_line s.version hv hv0]
  rfl

/-! ## Claim theorems -/

/-- Claim C3: saving the record `{name:"agent", version:"1.0.0", pid:4242,
event_counter:7}` writes exactly the file content
`"agent\n1.0.0\n4242\n7\n"`, and loading that content into any
caller-supplied record succeeds and reproduces exactly those four field
values. -/
theorem concrete_scenario_agent (init : AppState) :
    (save_state agentState true).2 = some ("agent\n1.0.0\n4242\n7\n".toList) ∧
    (load_state init (some ("agent\n1.0.0\n4242\n7\n".toList))).1 = 0 ∧
    (load_state init (some ("agent\n1.0.0\n4242\n7\n".toList))).2.name
      = "agent".toList ∧
    (load_state init (some ("agent\n1.0.0\n4242\n7\n".toList))).2.version
      = "1.0.0".toList ∧
    (load_state init (some ("agent\n1.0.0\n4242\n7\n".toList))).2.pid = 4242 ∧
    (load_state init (some ("agent\n1.0.0\n4242\n7\n".toList))).2.event_counter
      = 7 := by
  refine ⟨by decide, ?_, ?_, ?_, ?_, ?_⟩ <;> rfl

/-- Claim C5: when the file cannot be opened for reading (no readable file
at the path, modelled by `none`), `load_state` returns the failure status
and leaves every field of the caller-supplied record untouched. -/
theorem load_state_missing_file (init : AppState) :
    load_state init none = (-1, init) := rfl

/-- Claim C1 (amended): the save/load round trip restores all four persisted
fields for every record whose `name` and `version` are newline-free,
NUL-free C strings of at most 254 characters (so that each line fits the
decoder's 256-byte `fgets` buffer) and whose `pid` and `event_counter` are
unsigned 32-bit values. -/
theorem save_load_roundtrip (init s : AppState)
    (hn : '\n' ∉ s.name) (hv : '\n' ∉ s.version)
    (hn0 : '\x00' ∉ s.name) (hv0 : '\x00' ∉ s.version)
    (hln : s.name.length ≤ 254) (hlv : s.version.length ≤ 254)
    (hp : s.pid < 2 ^ 32) (he : s.event_counter < 2 ^ 32) :
    ∃ content, (save_state s true).2 = some content ∧
      (load_state init (some content)).1 = 0 ∧
      (load_state init (some content)).2.name = s.name ∧
      (load_state init (some content)).2.version = s.version ∧
      (load_state init (some content)).2.pid = s.pid ∧
      (load_state init (some content)).2.event_counter = s.event_counter := by
  refine ⟨encodeState s, rfl, ?_⟩
  rw [load_after_save init s hn hn0 hv hv0 hln hlv]
  simp [Nat.mod_eq_of_lt hp, Nat.mod_eq_of_lt he]
  exact ⟨hp, he⟩

/-- Witness for C1's amended round trip at the concrete agent record. -/
theorem save_load_roundtrip_witness :
    ('\n' ∉ agentState.name ∧ '\n' ∉ agentState.version ∧
      agentState.pid < 2 ^ 32 ∧ agentState.event_counter < 2 ^ 32) ∧
    (∃ content, (save_state agentState true).2 = some content ∧
      (load_state dflt (some content)).1 = 0 ∧
      (load_state dflt (some content)).2.name = agentState.name ∧
      (load_state dflt (some content)).2.version = agentState.version ∧
      (load_state dflt (some content)).2.pid = agentState.pid ∧
      (load_state dflt (some content)).2.event_counter
        = agentState.event_counter) :=
  ⟨by decide, save_load_roundtrip dflt agentState (by decide) (by decide)
    (by decide) (by decide) (by decide) (by decide) (by decide) (by decide)⟩

/-- Counterexample to C1 as stated: `longNameState` satisfies every
hypothesis of the claim (newline-free name and version, 32-bit counters),
yet saving and loading it does not restore it — the 255-character name fills
the decoder's buffer, the version line is misread, and the load in fact
fails. -/
theorem save_load_roundtrip_cex :
    ('\n' ∉ longNameState.name ∧ '\n' ∉ longNameState.version ∧
      longNameState.pid < 2 ^ 32 ∧ longNameState.event_counter < 2 ^ 32) ∧
    (save_state longNameState true).2 = some (encodeState longNameState) ∧
    (load_state dflt (some (encodeState longNameState))).1 = -1 ∧
    (load_state dflt (some (encodeState longNameState))).2.version
      ≠ longNameState.version := by
  refine ⟨by decide, rfl, by decide, by decide⟩

/-- Claim C4: for every record with newline-free `name` and `version`, the
file written by `save_state` splits at newlines into exactly the four lines
`name`, `version`, decimal `pid`, decimal `event_counter`, in that order,
each terminated by a single newline, with nothing after the last one (the
final split segment is empty). -/
theorem save_state_four_lines (s : AppState)
    (hn : '\n' ∉ s.name) (hv : '\n' ∉ s.version) :
    ∃ content, (save_state s true).2 = some content ∧
      splitNl content =
        [s.name, s.version, natDigits s.pid, natDigits s.event_counter, []] := by
  refine ⟨encodeState s, rfl, ?_⟩
  have hd1 : '\n' ∉ natDigits s.pid := fun hm =>
    absurd (natDigits_digit _ _ hm) (by decide)
  have hd2 : '\n' ∉ natDigits s.event_counter := fun hm =>
    absurd (natDigits_digit _ _ hm) (by decide)
  unfold encodeState
  rw [splitNl_line _ _ hn, splitNl_line _ _ hv, splitNl_line _ _ hd1,
    splitNl_line _ _ hd2]
  rfl

/-- Witness for C4 at the concrete agent record. -/
theorem save_state_four_lines_witness :
    ('\n' ∉ agentState.name ∧ '\n' ∉ agentState.version) ∧
    (∃ content, (save_state agentState true).2 = some content ∧
      splitNl content =
        [agentState.name, agentState.version, natDigits agentState.pid,
          natDigits agentState.event_counter, []]) :=
  ⟨by decide, save_state_four_lines agentState (by decide) (by decide)⟩

/-- Claim C10: `save_state` validates nothing: even when `name` or `version`
embeds a newline it returns the success status whenever the file opens
(failing only when it cannot), and the file it then writes holds more than
four newlines, hence more than four lines. -/
theorem save_state_no_validation (s : AppState)
    (h : '\n' ∈ s.name ∨ '\n' ∈ s.version) :
    (save_state s true).1 = 0 ∧ (save_state s false).1 = -1 ∧
    ∃ content, (save_state s true).2 = some content ∧
      4 < content.count '\n' := by
  refine ⟨rfl, rfl, encodeState s, rfl, ?_⟩
  have hd1 : (natDigits s.pid).count '\n' = 0 :=
    List.count_eq_zero.mpr (fun hm => absurd (natDigits_digit _ _ hm) (by decide))
  have hd2 : (natDigits s.event_counter).count '\n' = 0 :=
    List.count_eq_zero.mpr (fun hm => absurd (natDigits_digit _ _ hm) (by decide))
  have hpos : 0 < s.name.count '\n' + s.version.count '\n' := by
    rcases h with h | h
    · have := List.count_pos_iff.mpr h
      omega
    · have := List.count_pos_iff.mpr h
      omega
  unfold encodeState
  simp only [List.count_append, List.count_cons_self, hd1, hd2]
  omega

/-- Witness for C10 at a record whose name embeds a newline. -/
theorem save_state_no_validation_witness :
    ('\n' ∈ newlineState.name ∨ '\n' ∈ newlineState.version) ∧
    ((save_state newlineState true).1 = 0 ∧
      (save_state newlineState false).1 = -1 ∧
      ∃ content, (save_state newlineState true).2 = some content ∧
        4 < content.count '\n') :=
  ⟨by decide, save_state_no_validation newlineState (Or.inl (by decide))⟩

/-- Claim C6: a file holding a single line — fully consumed by the first
read, so that end of file is reached before a second line can be read —
always makes `load_state` fail. The hypotheses say the content is one
newline-free line `l` fitting the read buffer, with or without its
terminating newline; the conclusion also exhibits the end-of-file condition:
the first `fgets` leaves nothing unread. -/
theorem load_state_single_line_fails (init : AppState) (l content : List Char)
    (hne : l ≠ []) (hnl : '\n' ∉ l) (hlen : l.length ≤ 254)
    (hc : content = l ++ ['\n'] ∨ content = l) :
    (∃ buf, fgets 256 content = some (buf, [])) ∧
    (load_state init (some content)).1 = -1 := by
  have hend : fgets 256 ([] : List Char) = none := rfl
  rcases hc with hc | hc <;> subst hc
  · have hf := fgets_line l [] hnl hlen
    exact ⟨⟨l ++ ['\n'], hf⟩, by simp only [load_state, hf, hend]⟩
  · have hf := fgets_all content hne hnl (by omega)
    exact ⟨⟨content, hf⟩, by simp only [load_state, hf, hend]⟩

/-- Witness for C6 at the one-line file `"a\n"`. -/
theorem load_state_single_line_fails_witness :
    ((['a'] : List Char) ≠ [] ∧ '\n' ∉ (['a'] : List Char)) ∧
    ((∃ buf, fgets 256 ("a\n".toList) = some (buf, [])) ∧
      (load_state dflt (some ("a\n".toList))).1 = -1) :=
  ⟨by decide, load_state_single_line_fails dflt ['a'] ("a\n".toList)
    (by decide) (by decide) (by decide) (Or.inl (by decide))⟩

/-- Claim C7: when the first two lines are well-formed (newline-free and
fitting the read buffer) but the remaining content does not yield two `%u`
conversions — as with the line `"abc def"` — `load_state` fails. -/
theorem load_state_malformed_numeric (init : AppState)
    (l1 l2 rest content : List Char)
    (h1nl : '\n' ∉ l1) (h1len : l1.length ≤ 254)
    (h2nl : '\n' ∉ l2) (h2len : l2.length ≤ 254)
    (hc : content = l1 ++ '\n' :: (l2 ++ '\n' :: rest))
    (hbad : (fscanf_uu rest).1 ≠ 2) :
    (load_state init (some content)).1 = -1 := by
  subst hc
  have hf1 := fgets_line l1 (l2 ++ '\n' :: rest) h1nl h1len
  have hf2 := fgets_line l2 rest h2nl h2len
  rw [load_state_stages init _ _ _ _ _ hf1 hf2]
  simp [if_neg hbad]

/-- Witness for C7 at the file `"a\nb\nabc def\n"`, whose third line holds
no parseable unsigned integer. -/
theorem load_state_malformed_numeric_witness :
    ((fscanf_uu ("abc def\n".toList)).1 ≠ 2) ∧
    (load_state dflt (some ("a\nb\nabc def\n".toList))).1 = -1 :=
  ⟨by decide, load_state_malformed_numeric dflt ['a'] ['b']
    ("abc def\n".toList) ("a\nb\nabc def\n".toList) (by decide) (by decide)
    (by decide) (by decide) (by decide) (by decide)⟩

/-- `fgets` never fails on nonempty remaining input. -/
theorem fgets_some (s : List Char) (h : s ≠ []) :
    fgets 256 s = some (fgetsAux 255 s) := by
  unfold fgets
  cases s with
  | nil => exact absurd rfl h
  | cons a b => rfl

/-- Claim C8: an overlong `name` or `version` line (newline-free and NUL-free
run `l` of 256 characters or more before its newline) does not make the line
reads fail: the read succeeds, consuming exactly the buffer's 255 characters,
and the corresponding output field receives `l.take 255` — a proper prefix of
the line (`l1` is a well-formed first line for the version case). -/
theorem load_state_overlong_truncates (init : AppState) (l rest l1 : List Char)
    (hnl : '\n' ∉ l) (hz : '\x00' ∉ l) (hlen : 256 ≤ l.length)
    (h1nl : '\n' ∉ l1) (h1len : l1.length ≤ 254) :
    fgets 256 (l ++ '\n' :: rest) =
      some (l.take 255, l.drop 255 ++ '\n' :: rest) ∧
    (load_state init (some (l ++ '\n' :: rest))).2.name = l.take 255 ∧
    (load_state init (some (l1 ++ '\n' :: (l ++ '\n' :: rest)))).2.version
      = l.take 255 ∧
    l.take 255 ≠ l := by
  have htknl : '\n' ∉ l.take 255 := fun hm => hnl (List.take_subset 255 l hm)
  have htkz : '\x00' ∉ l.take 255 := fun hm => hz (List.take_subset 255 l hm)
  have hchop : chopLine (l.take 255) = l.take 255 := chopLine_id _ htknl htkz
  have hf1 : fgets 256 (l ++ '\n' :: rest) =
      some (l.take 255, l.drop 255 ++ '\n' :: rest) :=
    fgets_trunc l ('\n' :: rest) hnl (by omega)
  have hne2 : l.drop 255 ++ '\n' :: rest ≠ [] := by
    cases l.drop 255 <;> simp
  have hf2 := fgets_some (l.drop 255 ++ '\n' :: rest) hne2
  refine ⟨hf1, ?_, ?_, ?_⟩
  · rw [load_state_stages init (l ++ '\n' :: rest) (l.take 255)
      (l.drop 255 ++ '\n' :: rest)
      (fgetsAux 255 (l.drop 255 ++ '\n' :: rest)).1
      (fgetsAux 255 (l.drop 255 ++ '\n' :: rest)).2 hf1 hf2]
    exact hchop
  · have hg1 := fgets_line l1 (l ++ '\n' :: rest) h1nl h1len
    rw [load_state_stages init (l1 ++ '\n' :: (l ++ '\n' :: rest))
      (l1 ++ ['\n']) (l ++ '\n' :: rest) (l.take 255)
      (l.drop 255 ++ '\n' :: rest) hg1 hf1]
    exact hchop
  · intro he
    have hl : (l.take 255).length = l.length := by rw [he]
    rw [List.length_take, Nat.min_eq_left (by omega)] at hl
    omega

set_option maxRecDepth 16384 in
/-- Witness for C8 at a 256-character `'a'` line over a well-formed rest. -/
theorem load_state_overlong_truncates_witness :
    ('\n' ∉ List.replicate 256 'a' ∧ 256 ≤ (List.replicate 256 'a').length) ∧
    (fgets 256 (List.replicate 256 'a' ++ '\n' :: ("1 2\n".toList)) =
      some ((List.replicate 256 'a').take 255,
        (List.replicate 256 'a').drop 255 ++ '\n' :: ("1 2\n".toList)) ∧
    (load_state dflt
      (some (List.replicate 256 'a' ++ '\n' :: ("1 2\n".toList)))).2.name
      = (List.replicate 256 'a').take 255 ∧
    (load_state dflt (some (['b'] ++ '\n' ::
      (List.replicate 256 'a' ++ '\n' :: ("1 2\n".toList))))).2.version
      = (List.replicate 256 'a').take 255 ∧
    (List.replicate 256 'a').take 255 ≠ List.replicate 256 'a') :=
  ⟨by decide, load_state_overlong_truncates dflt (List.replicate 256 'a')
    ("1 2\n".toList) ['b'] (by decide) (by decide) (by decide) (by decide)
    (by decide)⟩

/-- Claim C9: whenever `load_state` succeeds, every field of the
caller-supplied record other than the four persisted ones — `data`,
`status`, `last_updated`, `stared_at`, `error_log`, `error_log_len`,
`config`, `system_application`, the stdout/stderr entries and lengths —
holds the same value after the call as before it. -/
theorem load_state_success_frame (init : AppState) (file : Option (List Char))
    (_h : (load_state init file).1 = 0) :
    (load_state init file).2.data = init.data ∧
    (load_state init file).2.status = init.status ∧
    (load_state init file).2.last_updated = init.last_updated ∧
    (load_state init file).2.stared_at = init.stared_at ∧
    (load_state init file).2.error_log = init.error_log ∧
    (load_state init file).2.error_log_len = init.error_log_len ∧
    (load_state init file).2.config = init.config ∧
    (load_state init file).2.system_application = init.system_application ∧
    (load_state init file).2.stdout_entries = init.stdout_entries ∧
    (load_state init file).2.stdout_len = init.stdout_len ∧
    (load_state init file).2.stderr_entries = init.stderr_entries ∧
    (load_state init file).2.stderr_len = init.stderr_len := by
  obtain ⟨nm, vs, p, e, hshape⟩ := load_state_shape init file
  rw [hshape]
  exact ⟨rfl, rfl, rfl, rfl, rfl, rfl, rfl, rfl, rfl, rfl, rfl, rfl⟩

/-- Witness for C9 at the concrete agent file. -/
theorem load_state_success_frame_witness :
    (load_state preState (some ("agent\n1.0.0\n4242\n7\n".toList))).1 = 0 ∧
    ((load_state preState (some ("agent\n1.0.0\n4242\n7\n".toList))).2.data
        = preState.data ∧
      (load_state preState (some ("agent\n1.0.0\n4242\n7\n".toList))).2.status
        = preState.status ∧
      (load_state preState
        (some ("agent\n1.0.0\n4242\n7\n".toList))).2.last_updated
        = preState.last_updated ∧
      (load_state preState
        (some ("agent\n1.0.0\n4242\n7\n".toList))).2.stared_at
        = preState.stared_at ∧
      (load_state preState
        (some ("agent\n1.0.0\n4242\n7\n".toList))).2.error_log
        = preState.error_log ∧
      (load_state preState
        (some ("agent\n1.0.0\n4242\n7\n".toList))).2.error_log_len
        = preState.error_log_len ∧
      (load_state preState (some ("agent\n1.0.0\n4242\n7\n".toList))).2.config
        = preState.config ∧
      (load_state preState
        (some ("agent\n1.0.0\n4242\n7\n".toList))).2.system_application
        = preState.system_application ∧
      (load_state preState
        (some ("agent\n1.0.0\n4242\n7\n".toList))).2.stdout_entries
        = preState.stdout_entries ∧
      (load_state preState
        (some ("agent\n1.0.0\n4242\n7\n".toList))).2.stdout_len
        = preState.stdout_len ∧
      (load_state preState
        (some ("agent\n1.0.0\n4242\n7\n".toList))).2.stderr_entries
        = preState.stderr_entries ∧
      (load_state preState
        (some ("agent\n1.0.0\n4242\n7\n".toList))).2.stderr_len
        = preState.stderr_len) :=
  ⟨by decide, load_state_success_frame preState
    (some ("agent\n1.0.0\n4242\n7\n".toList)) (by decide)⟩

/-- Claim C2 (amended): on a failing `load_state` call, `event_counter` and
every non-persisted field are never mutated, and when the failure happens at
the open stage or at either line-read stage the whole record is untouched;
but a failure at the numeric stage occurs only after `name` and `version`
(and, when the first integer converts, `pid`) have already been overwritten,
so the record may be left partially mutated there. -/
theorem load_state_failure_discipline (init : AppState)
    (file : Option (List Char)) (h : (load_state init file).1 = -1) :
    ((load_state init file).2.event_counter = init.event_counter ∧
      (load_state init file).2.data = init.data ∧
      (load_state init file).2.status = init.status ∧
      (load_state init file).2.last_updated = init.last_updated ∧
      (load_state init file).2.stared_at = init.stared_at ∧
      (load_state init file).2.error_log = init.error_log ∧
      (load_state init file).2.error_log_len = init.error_log_len ∧
      (load_state init file).2.config = init.config ∧
      (load_state init file).2.system_application = init.system_application ∧
      (load_state init file).2.stdout_entries = init.stdout_entries ∧
      (load_state init file).2.stdout_len = init.stdout_len ∧
      (load_state init file).2.stderr_entries = init.stderr_entries ∧
      (load_state init file).2.stderr_len = init.stderr_len) ∧
    (file = none → (load_state init file).2 = init) ∧
    (∀ content, file = some content → fgets 256 content = none →
      (load_state init file).2 = init) ∧
    (∀ content nbuf rest1, file = some content →
      fgets 256 content = some (nbuf, rest1) → fgets 256 rest1 = none →
      (load_state init file).2 = init) := by
  have hec : (load_state init file).2.event_counter = init.event_counter := by
    cases file with
    | none => rfl
    | some content =>
      cases h1 : fgets 256 content with
      | none => simp only [load_state, h1]
      | some pr1 =>
        obtain ⟨nbuf, rest1⟩ := pr1
        cases h2 : fgets 256 rest1 with
        | none => simp only [load_state, h1, h2]
        | some pr2 =>
          obtain ⟨vbuf, rest2⟩ := pr2
          have hst := load_state_stages init content nbuf rest1 vbuf rest2 h1 h2
          have hcnt : (fscanf_uu rest2).1 ≠ 2 := by
            intro hc
            rw [hst, if_pos hc] at h
            simp at h
          rw [hst]
          simp only [fscanf_uu_snd_none rest2 hcnt, Option.getD_none]
  obtain ⟨nm, vs, p, e, hshape⟩ := load_state_shape init file
  refine ⟨⟨hec, ?_, ?_, ?_, ?_, ?_, ?_, ?_, ?_, ?_, ?_, ?_, ?_⟩, ?_, ?_, ?_⟩
  · rw [hshape]
  · rw [hshape]
  · rw [hshape]
  · rw [hshape]
  · rw [hshape]
  · rw [hshape]
  · rw [hshape]
  · rw [hshape]
  · rw [hshape]
  · rw [hshape]
  · rw [hshape]
  · rw [hshape]
  · intro hf; subst hf; rfl
  · intro content hf h1; subst hf; simp only [load_state, h1]
  · intro content nbuf rest1 hf h1 h2; subst hf
    simp only [load_state, h1, h2]

/-- Witness for C2's amended failure discipline at an unopenable path. -/
theorem load_state_failure_discipline_witness :
    ((load_state preState none).1 = -1) ∧
    (((load_state preState none).2.event_counter = preState.event_counter ∧
      (load_state preState none).2.data = preState.data ∧
      (load_state preState none).2.status = preState.status ∧
      (load_state preState none).2.last_updated = preState.last_updated ∧
      (load_state preState none).2.stared_at = preState.stared_at ∧
      (load_state preState none).2.error_log = preState.error_log ∧
      (load_state preState none).2.error_log_len = preState.error_log_len ∧
      (load_state preState none).2.config = preState.config ∧
      (load_state preState none).2.system_application
        = preState.system_application ∧
      (load_state preState none).2.stdout_entries = preState.stdout_entries ∧
      (load_state preState none).2.stdout_len = preState.stdout_len ∧
      (load_state preState none).2.stderr_entries = preState.stderr_entries ∧
      (load_state preState none).2.stderr_len = preState.stderr_len) ∧
    ((none : Option (List Char)) = none → (load_state preState none).2 = preState) ∧
    (∀ content, (none : Option (List Char)) = some content →
      fgets 256 content = none → (load_state preState none).2 = preState) ∧
    (∀ content nbuf rest1, (none : Option (List Char)) = some content →
      fgets 256 content = some (nbuf, rest1) → fgets 256 rest1 = none →
      (load_state preState none).2 = preState)) :=
  ⟨by decide, load_state_failure_discipline preState none (by decide)⟩

/-- Counterexample to C2 as stated: on the file `"a\nb\nx\n"` the numeric
stage fails — `load_state` returns `-1` — yet the caller's record has been
partially mutated: its `name` was `"old"` before the call and `"a"` after
it. -/
theorem load_state_failure_mutation_cex :
    (load_state preState (some ("a\nb\nx\n".toList))).1 = -1 ∧
    (load_state preState (some ("a\nb\nx\n".toList))).2.name ≠ preState.name ∧
    (load_state preState (some ("a\nb\nx\n".toList))).2.name = "a".toList := by
  decide
